import Mathlib

/-
Verification of the continuous windowed-capture-and-dispatch pipeline of
`ContinuousTranscriber` (src/transcribe_continuous.py): the bounded
recent-audio ring buffer (a `collections.deque` with `maxlen`), the periodic
window-extraction and signaling logic of `record_audio`, the dispatch guard of
`process_audio`, and the bounded result log maintained by
`transcribe_and_display`.

Frames are opaque byte blocks; the embedding keeps them as an arbitrary type
`α`.  All arithmetic the script performs on the configuration constants is
Python float arithmetic, but `SAMPLE_RATE / CHUNK_SIZE = 16000 / 1024 =
15.625` is a dyadic rational, exactly representable in binary floating point,
and so are its products with the small integers used here; the rational-number
model below is therefore exact.
-/

/-- Audio configuration (lines 40-43 of transcribe_continuous.py). -/
def SAMPLE_RATE : ℕ := 16000

/-- Frames per read: `CHUNK_SIZE = 1024` (line 41). -/
def CHUNK_SIZE : ℕ := 1024

/-- Duration of each audio clip in seconds: `CHUNK_DURATION = 5` (line 42). -/
def CHUNK_DURATION : ℕ := 5

/-- Overlap between clips in seconds: `OVERLAP_DURATION = 1` (line 43). -/
def OVERLAP_DURATION : ℕ := 1

/-- Python `int()` applied to a nonnegative rational: truncation toward zero,
which on nonnegative arguments is the floor.  Every use in the script has a
nonnegative argument. -/
def pyInt (q : ℚ) : ℕ := ⌊q⌋.toNat

/-- The `maxlen` of the `frame_buffer` deque (line 61):
`int(SAMPLE_RATE / CHUNK_SIZE * (CHUNK_DURATION + OVERLAP_DURATION))`. -/
def frame_buffer_maxlen : ℕ :=
  pyInt ((SAMPLE_RATE : ℚ) / (CHUNK_SIZE : ℚ) * ((CHUNK_DURATION : ℚ) + (OVERLAP_DURATION : ℚ)))

/-- The signal cadence `chunks_per_processing` (line 84):
`int(SAMPLE_RATE / CHUNK_SIZE * OVERLAP_DURATION)`. -/
def chunks_per_processing : ℕ :=
  pyInt ((SAMPLE_RATE : ℚ) / (CHUNK_SIZE : ℚ) * (OVERLAP_DURATION : ℚ))

/-- The window length used by `process_audio` (lines 120 and 122):
`int(SAMPLE_RATE / CHUNK_SIZE * CHUNK_DURATION)`; the spec calls it
`framesPerClip`. -/
def frames_per_clip : ℕ :=
  pyInt ((SAMPLE_RATE : ℚ) / (CHUNK_SIZE : ℚ) * (CHUNK_DURATION : ℚ))

/-- A `collections.deque` with a `maxlen` bound, newest element at the right
end.  `frame_buffer` (line 61) is such a deque. -/
structure Deque (α : Type) where
  maxlen : ℕ
  items : List α
deriving DecidableEq

/-- `deque.append`: add at the right end; a deque never holds more than
`maxlen` items, so whatever exceeds the bound is discarded from the left. -/
def Deque.append {α : Type} (d : Deque α) (x : α) : Deque α :=
  let items := d.items ++ [x]
  { d with items := if d.maxlen < items.length then items.drop (items.length - d.maxlen) else items }

/-- Python list slicing `l[i:]` for an integer index `i`: a negative index
counts from the right end (effective start `max(len + i, 0)`), and `-0 = 0`
starts from the left end. -/
def pySliceFrom {α : Type} (l : List α) (i : ℤ) : List α :=
  l.drop (if i < 0 then ((l.length : ℤ) + i).toNat else i.toNat)

/-- The point-in-time window copy taken by `process_audio` (line 122):
`list(self.frame_buffer)[-count:]`.  `list(...)` copies the deque, so the
result is a value unaffected by later appends; the functional embedding makes
this automatic. -/
def Deque.snapshot {α : Type} (d : Deque α) (count : ℕ) : List α :=
  pySliceFrom d.items (-(count : ℤ))

/-- The `maxsize` with which `frames_queue` is constructed (line 54):
`asyncio.Queue()` defaults to `maxsize = 0`, which asyncio documents as an
unbounded queue. -/
def frames_queue_maxsize : ℕ := 0

/-- An asyncio queue is bounded exactly when constructed with positive
`maxsize`. -/
def queue_bounded : Prop := 0 < frames_queue_maxsize

/-- An asyncio queue is full when it is bounded and holds at least `maxsize`
items; an unbounded queue is never full. -/
def queue_full (q : List String) : Prop :=
  0 < frames_queue_maxsize ∧ frames_queue_maxsize ≤ q.length

/-- `await frames_queue.put(x)` (line 96) on the unbounded queue: the item is
always enqueued immediately, nothing is dropped and the caller never waits. -/
def queue_put (q : List String) (x : String) : List String := q ++ [x]

/-- The capture-loop state of `record_audio`: the shared `frame_buffer`
(line 61), the local `chunk_counter` (line 85), and the signals accumulated in
`frames_queue` (line 54). -/
structure CaptureState (α : Type) where
  frame_buffer : Deque α
  chunk_counter : ℕ
  frames_queue : List String
deriving DecidableEq

/-- One successful read iteration of the `record_audio` loop (lines 89-97):
append the frame to `frame_buffer`, increment `chunk_counter`, and when the
counter reaches `chunks_per_processing` put the marker string `"process"` on
`frames_queue` and reset the counter to 0. -/
def record_step {α : Type} (s : CaptureState α) (data : α) : CaptureState α :=
  let fb := s.frame_buffer.append data
  let c := s.chunk_counter + 1
  if chunks_per_processing ≤ c then
    { frame_buffer := fb, chunk_counter := 0, frames_queue := queue_put s.frames_queue "process" }
  else
    { frame_buffer := fb, chunk_counter := c, frames_queue := s.frames_queue }

/-- The capture state at loop entry: empty buffer of capacity
`frame_buffer_maxlen`, `chunk_counter = 0`, empty queue. -/
def capture_init (α : Type) : CaptureState α :=
  { frame_buffer := { maxlen := frame_buffer_maxlen, items := [] },
    chunk_counter := 0,
    frames_queue := [] }

/-- Run the capture loop over a stream of successfully read frames. -/
def record_run {α : Type} (frames : List α) : CaptureState α :=
  frames.foldl record_step (capture_init α)

/-- Outcome of one `audio_stream.read` call (line 89): a frame, or an
`IOError` whose `errno` is `paInputOverflowed`, or an `IOError` with any other
`errno`. -/
inductive ReadResult (α : Type) where
  | ok (data : α)
  | inputOverflowed
  | otherIOError
deriving DecidableEq

/-- One iteration of the `record_audio` loop body including its exception
handler (lines 88-102): a successful read runs `record_step` and the loop
continues; `paInputOverflowed` prints a warning and continues with the state
untouched; any other `IOError` is re-raised, ending the loop.  The boolean is
true when the loop goes on to the next read. -/
def record_read_step {α : Type} (s : CaptureState α) (r : ReadResult α) :
    CaptureState α × Bool :=
  match r with
  | .ok data => (record_step s data, true)
  | .inputOverflowed => (s, true)
  | .otherIOError => (s, false)

/-- Run the capture loop over a list of read outcomes, stopping early when an
iteration re-raises. -/
def record_loop {α : Type} (s : CaptureState α) : List (ReadResult α) → CaptureState α × Bool
  | [] => (s, true)
  | r :: rs =>
    match record_read_step s r with
    | (s2, true) => record_loop s2 rs
    | (s2, false) => (s2, false)

/-- Keep the reads that are not device overruns. -/
def not_overflow {α : Type} (r : ReadResult α) : Bool :=
  match r with
  | .inputOverflowed => false
  | _ => true

/-- The state `process_audio` can see and touch: the shared `frame_buffer`,
the shared `recent_transcriptions` result log (line 64), and the windows
handed to spawned transcription tasks (line 135). -/
structure ProcessState (α : Type) where
  frame_buffer : Deque α
  recent_transcriptions : List String
  tasks : List (List α)
deriving DecidableEq

/-- Handling of one queue item by `process_audio` (lines 118-135): when the
signal is the `"process"` marker and `frame_buffer` holds at least
`frames_per_clip` frames, copy the trailing `frames_per_clip` frames and
launch a transcription task on them; otherwise do nothing. -/
def process_signal {α : Type} (s : ProcessState α) (signal : String) : ProcessState α :=
  if signal = "process" ∧ frames_per_clip ≤ s.frame_buffer.items.length then
    { s with tasks := s.tasks ++ [s.frame_buffer.snapshot frames_per_clip] }
  else s

/-- Bound on the result log: `max_recent_transcriptions = 5` (line 65). -/
def max_recent_transcriptions : ℕ := 5

/-- The result-log append of `transcribe_and_display` (lines 172-176): push
the entry at the end; when the length then exceeds
`max_recent_transcriptions`, `pop(0)` evicts the front entry. -/
def append_transcription (log : List String) (entry : String) : List String :=
  let log2 := log ++ [entry]
  if max_recent_transcriptions < log2.length then log2.tail else log2

/-- One part of a backend response (line 165); `text = none` models a part
without a `text` attribute, skipped by the `hasattr` filter. -/
structure GenPart where
  text : Option String
deriving DecidableEq

/-- A backend response (lines 164-167).  `parts = none` models a response
whose `parts` attribute is absent or `None`; `some []` an empty parts list
(falsy in Python, so the `elif` branch runs).  `text = none` models a missing
`text` attribute. -/
structure GenResponse where
  parts : Option (List GenPart)
  text : Option String
deriving DecidableEq

/-- The text-extraction logic of `transcribe_and_display` (lines 162-167):
start from `""`; when the response is truthy and has a truthy `parts`, join
the `text` of the parts that have one; otherwise when it has a `text`
attribute, take that.  (A `text` attribute holding `None` is modelled as `""`:
both are falsy, so the guard on line 169 treats them alike.) -/
def extract_transcription : Option GenResponse → String
  | none => ""
  | some r =>
    match r.parts with
    | some (p :: ps) => String.join ((p :: ps).filterMap GenPart.text)
    | _ =>
      match r.text with
      | some t => t
      | none => ""

/-- One complete `transcribe_and_display` task (lines 142-188) acting on the
result log.  The backend call either raises (`Except.error`, caught by the
handler on line 187, which only prints) or returns a response; a non-empty
extracted transcription is timestamped, appended via the bounded append, and
the display is refreshed (boolean `true`); otherwise the log is left exactly
as it was and no refresh happens. -/
def transcribe_and_display (log : List String) (timestamp : String)
    (outcome : Except Unit (Option GenResponse)) : List String × Bool :=
  match outcome with
  | .error _ => (log, false)
  | .ok response =>
    let transcription := extract_transcription response
    if transcription = "" then (log, false)
    else (append_transcription log ("[" ++ timestamp ++ "] " ++ transcription), true)

/-- A task is effective when its backend call returns and the extracted
transcription is non-empty; only effective tasks touch the result log. -/
def task_effective (t : String × Except Unit (Option GenResponse)) : Bool :=
  match t.2 with
  | .error _ => false
  | .ok r => !(extract_transcription r == "")

/-- Run a sequence of completed transcription tasks (timestamp and backend
outcome each) against the result log, in completion order. -/
def run_tasks (log : List String)
    (ts : List (String × Except Unit (Option GenResponse))) : List String :=
  ts.foldl (fun l t => (transcribe_and_display l t.1 t.2).1) log

/-- The result logs reachable in a run: `recent_transcriptions` starts empty
(line 64) and is only ever changed by `transcribe_and_display` tasks. -/
inductive ReachableLog : List String → Prop
  | init : ReachableLog []
  | step (log : List String) (timestamp : String)
      (outcome : Except Unit (Option GenResponse)) :
      ReachableLog log → ReachableLog (transcribe_and_display log timestamp outcome).1

/-
Helper lemmas shared by the claim theorems.
-/

lemma frame_buffer_maxlen_eq : frame_buffer_maxlen = 93 := by
  have h : (⌊(SAMPLE_RATE : ℚ) / (CHUNK_SIZE : ℚ) * ((CHUNK_DURATION : ℚ) + (OVERLAP_DURATION : ℚ))⌋ : ℤ) = 93 := by
    norm_num [SAMPLE_RATE, CHUNK_SIZE, CHUNK_DURATION, OVERLAP_DURATION, Int.floor_eq_iff]
  simp [frame_buffer_maxlen, pyInt, h]

lemma frames_per_clip_eq : frames_per_clip = 78 := by
  have h : (⌊(SAMPLE_RATE : ℚ) / (CHUNK_SIZE : ℚ) * (CHUNK_DURATION : ℚ)⌋ : ℤ) = 78 := by
    norm_num [SAMPLE_RATE, CHUNK_SIZE, CHUNK_DURATION, Int.floor_eq_iff]
  simp [frames_per_clip, pyInt, h]

lemma chunks_per_processing_eq : chunks_per_processing = 15 := by
  have h : (⌊(SAMPLE_RATE : ℚ) / (CHUNK_SIZE : ℚ) * (OVERLAP_DURATION : ℚ)⌋ : ℤ) = 15 := by
    norm_num [SAMPLE_RATE, CHUNK_SIZE, OVERLAP_DURATION, Int.floor_eq_iff]
  simp [chunks_per_processing, pyInt, h]

lemma Deque.append_maxlen {α : Type} (d : Deque α) (x : α) :
    (d.append x).maxlen = d.maxlen := by
  simp only [Deque.append]

lemma Deque.append_length_le {α : Type} (d : Deque α) (x : α)
    (h : d.items.length ≤ d.maxlen) :
    (d.append x).items.length ≤ d.maxlen := by
  simp only [Deque.append]
  split
  · simp only [List.length_drop, List.length_append, List.length_singleton]
    omega
  · simp only [List.length_append, List.length_singleton] at *
    omega

lemma Deque.append_at_capacity {α : Type} (d : Deque α) (x : α)
    (hfull : d.items.length = d.maxlen) (hpos : 0 < d.maxlen) :
    (d.append x).items = d.items.tail ++ [x] := by
  simp only [Deque.append]
  rw [if_pos (by simp only [List.length_append, List.length_singleton]; omega)]
  have h1 : d.items.length + 1 - d.maxlen = 1 := by omega
  simp only [List.length_append, List.length_singleton, h1]
  rw [List.drop_append_of_le_length (by omega), List.drop_one]

lemma record_step_frame_buffer {α : Type} (s : CaptureState α) (f : α) :
    (record_step s f).frame_buffer = s.frame_buffer.append f := by
  simp only [record_step]
  split <;> rfl

lemma record_run_buffer_le {α : Type} (frames : List α) (s : CaptureState α)
    (h : s.frame_buffer.items.length ≤ s.frame_buffer.maxlen) :
    (frames.foldl record_step s).frame_buffer.items.length
        ≤ (frames.foldl record_step s).frame_buffer.maxlen ∧
    (frames.foldl record_step s).frame_buffer.maxlen = s.frame_buffer.maxlen := by
  induction frames generalizing s with
  | nil => exact ⟨h, rfl⟩
  | cons f rest ih =>
    simp only [List.foldl_cons]
    have h2 := ih (record_step s f)
      (by rw [record_step_frame_buffer, Deque.append_maxlen]
          exact Deque.append_length_le s.frame_buffer f h)
    rw [record_step_frame_buffer, Deque.append_maxlen] at h2
    exact h2

/-- C1: along any sequence of frame appends performed by the capture loop the
`frame_buffer` never holds more than its `maxlen` many frames, and a deque
append at capacity evicts exactly the oldest (leftmost) frame, keeping the
remaining frames and their order, with the new frame at the right end. -/
theorem frame_buffer_bounded_and_fifo {α : Type} :
    (∀ frames : List α,
      (record_run frames).frame_buffer.items.length ≤ frame_buffer_maxlen) ∧
    (∀ (d : Deque α) (x : α), d.items.length ≤ d.maxlen →
      (d.append x).items.length ≤ d.maxlen) ∧
    (∀ (d : Deque α) (x : α), d.items.length = d.maxlen → 0 < d.maxlen →
      (d.append x).items = d.items.tail ++ [x]) := by
  refine ⟨?_, Deque.append_length_le, Deque.append_at_capacity⟩
  intro frames
  have h := record_run_buffer_le frames (capture_init α) (by simp [capture_init])
  rw [record_run]
  have hmax : (capture_init α).frame_buffer.maxlen = frame_buffer_maxlen := rfl
  omega

/-- Witness for C1 at a concrete deque of capacity 2 holding 2 frames. -/
theorem frame_buffer_bounded_and_fifo_witness :
    (Deque.append (Deque.mk 2 [0, 1]) 9).items.length ≤ 2 ∧
    (Deque.append (Deque.mk 2 [0, 1]) 9).items = [1, 9] := by
  constructor
  · exact frame_buffer_bounded_and_fifo.2.1 (Deque.mk 2 [0, 1]) 9 (by decide)
  · have h := frame_buffer_bounded_and_fifo.2.2 (Deque.mk 2 [0, 1]) 9 (by decide) (by decide)
    simpa using h

lemma Deque.snapshot_eq_drop {α : Type} (d : Deque α) (k : ℕ) (hk : 1 ≤ k) :
    d.snapshot k = d.items.drop (d.items.length - k) := by
  simp only [Deque.snapshot, pySliceFrom]
  rw [if_pos (by omega : -(k : ℤ) < 0)]
  congr 1
  omega

/-- C2: the window copy `list(frame_buffer)[-k:]` taken at dispatch time
returns exactly `min k currentLength` of the most recently appended frames in
append order: it is the suffix of the buffer contents left after dropping the
`length - k` oldest frames.  Being a `list(...)` copy, it is a value and so is
unaffected by later appends to the deque; the functional embedding renders
that automatic.  Every count the script ever requests is
`frames_per_clip = 78 ≥ 1`. -/
theorem snapshot_min_recent_chronological {α : Type} (d : Deque α) (k : ℕ)
    (hk : 1 ≤ k) :
    (d.snapshot k).length = min k d.items.length ∧
    d.items.take (d.items.length - k) ++ d.snapshot k = d.items := by
  rw [Deque.snapshot_eq_drop d k hk]
  constructor
  · rw [List.length_drop]
    omega
  · exact List.take_append_drop _ _

/-- Witness for C2 at a deque holding three frames with requested count 2. -/
theorem snapshot_min_recent_chronological_witness :
    (Deque.snapshot (Deque.mk 4 [10, 20, 30]) 2).length = min 2 3 := by
  have h := (snapshot_min_recent_chronological (Deque.mk 4 [10, 20, 30]) 2 (by decide)).1
  simpa using h

/-- C3 counterexample: the three derived frame-count constants of the script
are not the claimed ceiling values 94, 79 and 16 — `int()` truncates. -/
theorem derived_constants_ceiling_refuted :
    ¬ (frame_buffer_maxlen = 94 ∧ frames_per_clip = 79 ∧ chunks_per_processing = 16) := by
  intro h
  rw [frame_buffer_maxlen_eq] at h
  exact absurd h.1 (by decide)

/-- C3 amended: the three derived frame-count constants are computed with
floor (Python `int()` truncation of an exactly-representable float product)
and equal 93, 78 and 15; the ceiling of the same three products would instead
be 94, 79 and 16. -/
theorem derived_constants_floor_values :
    frame_buffer_maxlen = 93 ∧ frames_per_clip = 78 ∧ chunks_per_processing = 15 ∧
    (⌈(SAMPLE_RATE : ℚ) / (CHUNK_SIZE : ℚ) * ((CHUNK_DURATION : ℚ) + (OVERLAP_DURATION : ℚ))⌉ = 94 ∧
     ⌈(SAMPLE_RATE : ℚ) / (CHUNK_SIZE : ℚ) * (CHUNK_DURATION : ℚ)⌉ = 79 ∧
     ⌈(SAMPLE_RATE : ℚ) / (CHUNK_SIZE : ℚ) * (OVERLAP_DURATION : ℚ)⌉ = 16) := by
  refine ⟨frame_buffer_maxlen_eq, frames_per_clip_eq, chunks_per_processing_eq, ?_, ?_, ?_⟩
  · norm_num [SAMPLE_RATE, CHUNK_SIZE, CHUNK_DURATION, OVERLAP_DURATION, Int.ceil_eq_iff]
  · norm_num [SAMPLE_RATE, CHUNK_SIZE, CHUNK_DURATION, Int.ceil_eq_iff]
  · norm_num [SAMPLE_RATE, CHUNK_SIZE, OVERLAP_DURATION, Int.ceil_eq_iff]

/-- C4 counterexample: the claim that the signal channel is bounded (and that
a put on a full channel drops the signal) is false — `frames_queue` is an
`asyncio.Queue()` with default `maxsize = 0`, which is unbounded. -/
theorem signal_channel_bounded_refuted :
    ¬ (queue_bounded ∧ ∀ q : List String, queue_full q → queue_put q "process" = q) := by
  rintro ⟨hb, -⟩
  simp [queue_bounded, frames_queue_maxsize] at hb

/-- C4 amended: the Signal channel is unbounded (`asyncio.Queue()` with
default `maxsize = 0`), so it is never full; the Capture Loop's
`await frames_queue.put` always enqueues the signal immediately at the back of
the queue without blocking, and no signal is ever dropped. -/
theorem signal_channel_unbounded_never_drops :
    ¬ queue_bounded ∧ (∀ q : List String, ¬ queue_full q) ∧
    (∀ (q : List String) (x : String),
      (queue_put q x).length = q.length + 1 ∧ (queue_put q x).getLast? = some x) := by
  refine ⟨?_, ?_, ?_⟩
  · simp [queue_bounded, frames_queue_maxsize]
  · intro q h
    simp [queue_full, frames_queue_maxsize] at h
  · intro q x
    exact ⟨by simp [queue_put], by simp [queue_put]⟩

/-- Witness for the amended C4: putting on the empty queue enqueues the
signal at the back. -/
theorem signal_channel_unbounded_never_drops_witness :
    (queue_put [] "process").getLast? = some "process" :=
  (signal_channel_unbounded_never_drops.2.2 [] "process").2

lemma record_step_eq_pos {α : Type} (s : CaptureState α) (f : α)
    (h : chunks_per_processing ≤ s.chunk_counter + 1) :
    record_step s f =
      { frame_buffer := s.frame_buffer.append f, chunk_counter := 0,
        frames_queue := s.frames_queue ++ ["process"] } := by
  simp only [record_step, queue_put]
  rw [if_pos h]

lemma record_step_eq_neg {α : Type} (s : CaptureState α) (f : α)
    (h : ¬ chunks_per_processing ≤ s.chunk_counter + 1) :
    record_step s f =
      { frame_buffer := s.frame_buffer.append f, chunk_counter := s.chunk_counter + 1,
        frames_queue := s.frames_queue } := by
  simp only [record_step, queue_put]
  rw [if_neg h]

lemma record_run_cadence {α : Type} (frames : List α) (s : CaptureState α)
    (h : s.chunk_counter < chunks_per_processing) :
    (frames.foldl record_step s).chunk_counter
        = (s.chunk_counter + frames.length) % chunks_per_processing ∧
    (frames.foldl record_step s).frames_queue.length
        = s.frames_queue.length + (s.chunk_counter + frames.length) / chunks_per_processing := by
  induction frames generalizing s with
  | nil =>
    simp only [List.foldl_nil, List.length_nil, Nat.add_zero]
    exact ⟨(Nat.mod_eq_of_lt h).symm, by rw [Nat.div_eq_of_lt h]; omega⟩
  | cons f rest ih =>
    simp only [List.foldl_cons, List.length_cons]
    by_cases hc : chunks_per_processing ≤ s.chunk_counter + 1
    · rw [record_step_eq_pos s f hc]
      have hk : s.chunk_counter + 1 = chunks_per_processing := by omega
      obtain ⟨h1, h2⟩ := ih
        { frame_buffer := s.frame_buffer.append f, chunk_counter := 0,
          frames_queue := s.frames_queue ++ ["process"] } (show 0 < chunks_per_processing by omega)
      constructor
      · rw [h1]
        have he : s.chunk_counter + (rest.length + 1) = rest.length + chunks_per_processing := by omega
        simp only [he, Nat.add_mod_right]
        simp
      · rw [h2]
        have he : s.chunk_counter + (rest.length + 1) = rest.length + chunks_per_processing := by omega
        rw [he, Nat.add_div_right _ (by omega), List.length_append]
        simp
        omega
    · rw [record_step_eq_neg s f hc]
      obtain ⟨h1, h2⟩ := ih
        { frame_buffer := s.frame_buffer.append f, chunk_counter := s.chunk_counter + 1,
          frames_queue := s.frames_queue } (show s.chunk_counter + 1 < chunks_per_processing by omega)
      have he : s.chunk_counter + 1 + rest.length = s.chunk_counter + (rest.length + 1) := by omega
      simp only at h1 h2
      rw [he] at h1 h2
      exact ⟨h1, h2⟩

/-- C5: fed a steady stream of successfully read frames, the capture loop
increments `chunk_counter` once per appended frame, enqueues one `"process"`
signal whenever the counter reaches `chunks_per_processing`, resetting it to
0, so that after `n` appends exactly `n / chunks_per_processing` (floor)
signals have been emitted and the counter stands at
`n % chunks_per_processing`. -/
theorem capture_signal_cadence {α : Type} (frames : List α) :
    (record_run frames).frames_queue.length = frames.length / chunks_per_processing ∧
    (record_run frames).chunk_counter = frames.length % chunks_per_processing := by
  have h := record_run_cadence frames (capture_init α)
    (by simp [capture_init, chunks_per_processing_eq])
  obtain ⟨h1, h2⟩ := h
  rw [record_run]
  constructor
  · rw [h2]
    simp [capture_init]
  · rw [h1]
    simp [capture_init]

/-- C6: a signal received while `frame_buffer` holds fewer than
`frames_per_clip` frames is discarded by `process_audio`: the state is
returned unchanged — no window is copied or encoded, no transcription task is
launched, and the ring buffer and the result log are exactly as before. -/
theorem short_buffer_signal_discarded {α : Type} (s : ProcessState α)
    (signal : String) (h : s.frame_buffer.items.length < frames_per_clip) :
    process_signal s signal = s ∧
    (process_signal s signal).frame_buffer = s.frame_buffer ∧
    (process_signal s signal).recent_transcriptions = s.recent_transcriptions ∧
    (process_signal s signal).tasks = s.tasks := by
  have hng : ¬ (signal = "process" ∧ frames_per_clip ≤ s.frame_buffer.items.length) := by
    rintro ⟨-, hle⟩
    omega
  simp only [process_signal, if_neg hng]
  exact ⟨trivial, trivial, trivial, trivial⟩

/-- Witness for C6: three frames in the buffer while `frames_per_clip = 78`;
the signal is discarded and nothing changes. -/
theorem short_buffer_signal_discarded_witness :
    process_signal (ProcessState.mk (Deque.mk frame_buffer_maxlen [0, 1, 2]) [] []) "process"
      = ProcessState.mk (Deque.mk frame_buffer_maxlen [0, 1, 2]) [] [] :=
  (short_buffer_signal_discarded _ "process" (by rw [frames_per_clip_eq]; decide)).1

lemma append_transcription_length_le (log : List String) (e : String)
    (h : log.length ≤ max_recent_transcriptions) :
    (append_transcription log e).length ≤ max_recent_transcriptions := by
  simp only [append_transcription]
  split
  · simp only [List.length_tail, List.length_append, List.length_singleton]
    omega
  · rename_i hng
    simp only [List.length_append, List.length_singleton] at *
    omega

lemma append_transcription_at_capacity (log : List String) (e : String)
    (h : log.length = max_recent_transcriptions) :
    append_transcription log e = log.tail ++ [e] := by
  simp only [append_transcription]
  rw [if_pos (by simp only [List.length_append, List.length_singleton]; omega)]
  rw [← List.drop_one, List.drop_append_of_le_length
    (by rw [h, max_recent_transcriptions]; omega), List.drop_one]

/-- C7: along any sequence of appends the result log never holds more than
`max_recent_transcriptions` entries; an append to a log already at that bound
puts the new entry at the back and evicts exactly the front (oldest) entry;
and with the configured bound 5, appending E1..E6 to the empty log leaves
exactly E2..E6 in order. -/
theorem result_log_bounded_fifo :
    (∀ entries : List String,
      (entries.foldl append_transcription []).length ≤ max_recent_transcriptions) ∧
    (∀ (log : List String) (e : String), log.length ≤ max_recent_transcriptions →
      (append_transcription log e).length ≤ max_recent_transcriptions) ∧
    (∀ (log : List String) (e : String), log.length = max_recent_transcriptions →
      append_transcription log e = log.tail ++ [e]) ∧
    ["E1", "E2", "E3", "E4", "E5", "E6"].foldl append_transcription []
      = ["E2", "E3", "E4", "E5", "E6"] := by
  refine ⟨?_, append_transcription_length_le, append_transcription_at_capacity, by decide⟩
  intro entries
  have hgen : ∀ (es : List String) (log : List String),
      log.length ≤ max_recent_transcriptions →
      (es.foldl append_transcription log).length ≤ max_recent_transcriptions := by
    intro es
    induction es with
    | nil => intro log hl; simpa using hl
    | cons e rest ih =>
      intro log hl
      simpa using ih (append_transcription log e) (append_transcription_length_le log e hl)
  exact hgen entries [] (by simp [max_recent_transcriptions])

/-- Witness for C7: appending to a log of five entries evicts the oldest. -/
theorem result_log_bounded_fifo_witness :
    append_transcription ["a", "b", "c", "d", "e"] "f" = ["b", "c", "d", "e", "f"] := by
  have h := result_log_bounded_fifo.2.2.1 ["a", "b", "c", "d", "e"] "f" (by decide)
  simpa using h

lemma transcribe_and_display_ineffective (log : List String) (ts : String)
    (o : Except Unit (Option GenResponse)) (h : task_effective (ts, o) = false) :
    transcribe_and_display log ts o = (log, false) := by
  match o with
  | .error e => rfl
  | .ok r =>
    simp only [task_effective, Bool.not_eq_false', beq_iff_eq] at h
    simp only [transcribe_and_display, h, if_pos]

/-- C8: a transcription task whose backend call raises, or whose response has
no extractable text, terminates without touching the result log — the log is
exactly as before and no display refresh happens; and a run of completed
tasks produces the same log as the run with the ineffective tasks removed, so
one failing window never prevents later windows from being appended. -/
theorem failed_task_isolated :
    (∀ (log : List String) (ts : String) (e : Unit),
      transcribe_and_display log ts (Except.error e) = (log, false)) ∧
    (∀ (log : List String) (ts : String) (r : Option GenResponse),
      extract_transcription r = "" →
      transcribe_and_display log ts (Except.ok r) = (log, false)) ∧
    (∀ (log : List String) (tasks : List (String × Except Unit (Option GenResponse))),
      run_tasks log tasks = run_tasks log (tasks.filter task_effective)) := by
  refine ⟨fun log ts e => rfl, ?_, ?_⟩
  · intro log ts r h
    simp only [transcribe_and_display, h, if_pos]
  · intro log tasks
    induction tasks generalizing log with
    | nil => rfl
    | cons t rest ih =>
      by_cases ht : task_effective t
      · simp only [run_tasks, List.foldl_cons, List.filter_cons, ht, if_pos] at *
        exact ih _
      · have hf : task_effective t = false := by simpa using ht
        have h0 : transcribe_and_display log t.1 t.2 = (log, false) :=
          transcribe_and_display_ineffective log t.1 t.2 hf
        simp only [run_tasks, List.foldl_cons, List.filter_cons, hf, if_neg,
          Bool.false_eq_true, not_false_eq_true, h0] at *
        exact ih log

/-- Witness for C8: a response whose parts list is empty and which has no
text attribute yields no extractable text, and the log is untouched. -/
theorem failed_task_isolated_witness :
    transcribe_and_display ["[t] x"] "00:00:01"
        (Except.ok (some (GenResponse.mk (some []) none))) = (["[t] x"], false) :=
  failed_task_isolated.2.1 ["[t] x"] "00:00:01" (some (GenResponse.mk (some []) none)) rfl

/-- C9: a device input overflow raised by `audio_stream.read` is handled
inside the loop body: the state (buffer, counter, queue) is untouched and the
loop continues; a run of reads computes the same state as the run with the
overflow reads removed; and a run containing no other I/O error never
terminates the capture loop. -/
theorem input_overflow_recoverable {α : Type} :
    (∀ s : CaptureState α, record_read_step s ReadResult.inputOverflowed = (s, true)) ∧
    (∀ (s : CaptureState α) (reads : List (ReadResult α)),
      record_loop s reads = record_loop s (reads.filter not_overflow)) ∧
    (∀ (s : CaptureState α) (reads : List (ReadResult α)),
      (∀ r ∈ reads, r ≠ ReadResult.otherIOError) → (record_loop s reads).2 = true) := by
  refine ⟨fun s => rfl, ?_, ?_⟩
  · intro s reads
    induction reads generalizing s with
    | nil => rfl
    | cons r rest ih =>
      cases r with
      | ok data =>
        simp only [record_loop, record_read_step, List.filter_cons, not_overflow]
        exact ih (record_step s data)
      | inputOverflowed =>
        simp only [record_loop, record_read_step, List.filter_cons, not_overflow]
        exact ih s
      | otherIOError =>
        simp only [record_loop, record_read_step, List.filter_cons, not_overflow]
  · intro s reads
    induction reads generalizing s with
    | nil => intro _; rfl
    | cons r rest ih =>
      intro h
      cases r with
      | ok data =>
        simp only [record_loop, record_read_step]
        exact ih (record_step s data) (fun r hr => h r (List.mem_cons_of_mem _ hr))
      | inputOverflowed =>
        simp only [record_loop, record_read_step]
        exact ih s (fun r hr => h r (List.mem_cons_of_mem _ hr))
      | otherIOError =>
        exact absurd rfl (h ReadResult.otherIOError (List.mem_cons_self _ _))

/-- Witness for C9: a run with an overflow between two good reads keeps
going. -/
theorem input_overflow_recoverable_witness :
    (record_loop (capture_init ℕ)
      [ReadResult.ok 7, ReadResult.inputOverflowed, ReadResult.ok 8]).2 = true :=
  input_overflow_recoverable.2.2 (capture_init ℕ)
    [ReadResult.ok 7, ReadResult.inputOverflowed, ReadResult.ok 8] (by decide)

lemma mem_append_transcription {log : List String} {e x : String}
    (h : x ∈ append_transcription log e) : x ∈ log ∨ x = e := by
  simp only [append_transcription] at h
  split at h
  · rw [← List.drop_one] at h
    have h2 := List.drop_subset 1 (log ++ [e]) h
    simpa using h2
  · simpa using h

/-- C10: every entry ever held in the result log is a timestamp-prefixed
string whose transcription part is non-empty, because the append on line 172
runs only under the guard `if transcription:` (line 169); a response with no
extractable text leaves the log untouched and triggers no display refresh. -/
theorem result_log_entries_nonempty :
    (∀ log : List String, ReachableLog log →
      ∀ e ∈ log, ∃ ts t : String, t ≠ "" ∧ e = "[" ++ ts ++ "] " ++ t) ∧
    (∀ (log : List String) (ts : String) (r : Option GenResponse),
      extract_transcription r = "" →
      transcribe_and_display log ts (Except.ok r) = (log, false)) := by
  constructor
  · intro log hlog
    induction hlog with
    | init => intro e he; exact absurd he (List.not_mem_nil e)
    | step log ts o _ ih =>
      match o with
      | .error e =>
        intro x hx
        exact ih x hx
      | .ok r =>
        by_cases he : extract_transcription r = ""
        · intro x hx
          simp only [transcribe_and_display, he, if_pos] at hx
          exact ih x hx
        · intro x hx
          simp only [transcribe_and_display, if_neg he] at hx
          rcases mem_append_transcription hx with hxl | hxe
          · exact ih x hxl
          · exact ⟨ts, extract_transcription r, he, hxe⟩
  · intro log ts r h
    simp only [transcribe_and_display, h, if_pos]

/-- Witness for C10: after one successful task on the empty log, the single
entry held is timestamp-prefixed with a non-empty transcription. -/
theorem result_log_entries_nonempty_witness :
    ∃ ts t : String, t ≠ "" ∧ "[12:00:00] ola" = "[" ++ ts ++ "] " ++ t :=
  result_log_entries_nonempty.1
    (transcribe_and_display [] "12:00:00"
      (Except.ok (some (GenResponse.mk none (some "ola"))))).1
    (ReachableLog.step [] "12:00:00"
      (Except.ok (some (GenResponse.mk none (some "ola")))) ReachableLog.init)
    "[12:00:00] ola" (by decide)

/-- Witness for C5: a concrete run of 31 good reads emits
`31 / chunks_per_processing` signals. -/
theorem capture_signal_cadence_witness :
    (record_run (List.replicate 31 (0 : ℕ))).frames_queue.length
      = (List.replicate 31 (0 : ℕ)).length / chunks_per_processing :=
  (capture_signal_cadence (List.replicate 31 (0 : ℕ))).1
